import Mathlib

/-!
Verification of the analysis-and-transformation core of the Optimizer repository.

The embedding models the Python AST fragment that the two core components
operate on:
  * `StaticAnalyzer` (src/static_analysis.py) — the Pattern Detector;
  * `RefactoringEngine` (src/utils/refactoring_engine.py) — the Rewrite Engine.

Python `ast` nodes are modelled by the inductives below.  Node fields kept are
exactly the ones the two components read or build (`ctx` / `type_comment`
fields are never consulted by the code and are omitted).  Parent back-references
(`.parent` attributes, assigned by `StaticAnalyzer.analyze` and
`RefactoringEngine.visit_Module` before traversal) are modelled by passing
ancestor information down the structural traversal: for a tree, the chain of
`.parent` links from a node is exactly the list of its ancestors, so the count
of `ast.For` ancestors used by `visit_For` / `visit_BinOp` is carried as a
numeric argument.
-/

/-- Python literal constants (`ast.Constant.value`) in the fragment we model:
integers, booleans, strings and `None`.  Booleans compare as integers 0/1 in
Python, strings and `None` do not compare with integers (the comparison raises
`TypeError`). -/
inductive Const where
  | intC (n : Int)
  | boolC (b : Bool)
  | strC (s : String)
  | noneC
deriving DecidableEq, Repr

/-- Binary operators (`ast.Add`, `ast.Sub`, `ast.Mult`, `ast.Div`). -/
inductive Op where
  | add
  | sub
  | mult
  | div
deriving DecidableEq, Repr

/-- An `ast.alias` as it appears in an `ast.Import` statement:  the module
name and the optional `as` name. -/
structure Alias where
  name : String
  asname : Option String
deriving DecidableEq, Repr

/-- Python expressions (`ast.expr`).  `binop` carries the line number because
`visit_BinOp` reports `node.lineno` in its finding. -/
inductive Expr where
  | name (id : String)
  | const (c : Const)
  | call (func : Expr) (args : List Expr)
  | attr (value : Expr) (field : String)
  | subscript (value : Expr) (slice : Expr)
  | binop (left : Expr) (op : Op) (right : Expr) (lineno : Nat)
  | tuple (elts : List Expr)

/-- Python statements (`ast.stmt`) in the modelled fragment.  `forS` carries
the line number because `visit_For` reports `node.lineno`.  `pyImport` is an
`ast.Import` statement with its list of aliases. -/
inductive Stmt where
  | forS (target : Expr) (iter : Expr) (body : List Stmt) (orelse : List Stmt) (lineno : Nat)
  | assign (targets : List Expr) (value : Expr)
  | augAssign (target : Expr) (op : Op) (value : Expr)
  | pyImport (names : List Alias)
  | exprS (value : Expr)
  | passS

/-!
## Pattern Detector — `StaticAnalyzer` (src/static_analysis.py)

The analyzer is an `ast.NodeVisitor` whose instance holds four ever-growing
lists (`__init__`, lines 4-8).  `analyze` (lines 47-58) parses the text,
assigns `.parent` back-references and visits the tree, returning the four
lists; it never resets them.  Findings are modelled structurally: the code
formats them into f-strings, injectively from the data recorded here
(`{"line":..,"level":..}` dicts for nested loops, `(lineno, bound)` for the
high-iteration message, `(lineno, dumped expression)` for the repeated
computation message).
-/

/-- The mutable lists of one `StaticAnalyzer` instance. -/
structure AnalyzerState where
  nested_loops : List (Nat × Nat)
  high_iterations : List (Nat × Const)
  repeated_computations : List (Nat × Expr)
  vectorization_candidates : List Nat

/-- The state `StaticAnalyzer.__init__` produces: four empty lists. -/
def initState : AnalyzerState := ⟨[], [], [], []⟩

/-- Pointwise concatenation of the four finding lists. -/
def stateAppend (s t : AnalyzerState) : AnalyzerState :=
  ⟨s.nested_loops ++ t.nested_loops,
   s.high_iterations ++ t.high_iterations,
   s.repeated_computations ++ t.repeated_computations,
   s.vectorization_candidates ++ t.vectorization_candidates⟩

/-- The Python comparison `arg.value > 1000` from `visit_For` (line 26).
Integers compare normally, booleans compare as 0/1, and comparing a string
or `None` with an integer raises `TypeError`. -/
def constGtThreshold : Const → Except String Bool
  | .intC n => .ok (1000 < n)
  | .boolC _ => .ok false
  | .strC _ => .error "TypeError: gt not supported between str and int"
  | .noneC => .error "TypeError: gt not supported between NoneType and int"

/-- The high-iteration check of `visit_For` (lines 22-29): the `iter` of the loop
must be a `Call` whose `func` has `id == "range"` (so `func` is a `Name`),
with a non-empty argument list whose first element is a literal constant
greater than 1000; the comparison itself can raise. -/
def highIterCheck (ln : Nat) (iter : Expr) (st : AnalyzerState) :
    Except String AnalyzerState :=
  match iter with
  | .call (.name "range") (arg :: _) =>
    match arg with
    | .const c => do
      let b ← constGtThreshold c
      if b then
        pure { st with high_iterations := st.high_iterations ++ [(ln, c)] }
      else
        pure st
    | _ => pure st
  | _ => pure st

mutual

/-- Visit of one statement with `a` = the number of `ast.For` ancestors of the
node (the count obtained by walking the `.parent` chain upward, lines 12-17
and 36-44 of src/static_analysis.py).  Children of a `for` statement are
visited with `a + 1`; fields are visited in Python field order. -/
def anStmt (a : Nat) (st : AnalyzerState) : Stmt → Except String AnalyzerState
  | .forS target iter body orelse ln => do
    let st1 :=
      if 0 < a then
        { st with nested_loops := st.nested_loops ++ [(ln, a)] }
      else st
    let st2 ← highIterCheck ln iter st1
    let st3 ← anExpr (a + 1) st2 target
    let st4 ← anExpr (a + 1) st3 iter
    let st5 ← anStmts (a + 1) st4 body
    anStmts (a + 1) st5 orelse
  | .assign targets value => do
    let st1 ← anExprs a st targets
    anExpr a st1 value
  | .augAssign target _ value => do
    let st1 ← anExpr a st target
    anExpr a st1 value
  | .pyImport _ => pure st
  | .exprS value => anExpr a st value
  | .passS => pure st

/-- Visit of a statement list in order (`generic_visit` over a stmt field). -/
def anStmts (a : Nat) (st : AnalyzerState) : List Stmt → Except String AnalyzerState
  | [] => pure st
  | s :: rest => do
    let st1 ← anStmt a st s
    anStmts a st1 rest

/-- Visit of one expression with `a` = the number of `ast.For` ancestors.
`visit_BinOp` (lines 34-45) fires when the operator is `Add` or `Mult` and the
upward parent walk meets a `For`, i.e. when `a > 0`; the walk `break`s at the
first such ancestor, so at most one finding is appended per `BinOp` node. -/
def anExpr (a : Nat) (st : AnalyzerState) : Expr → Except String AnalyzerState
  | .name _ => pure st
  | .const _ => pure st
  | .call f args => do
    let st1 ← anExpr a st f
    anExprs a st1 args
  | .attr v _ => anExpr a st v
  | .subscript v s => do
    let st1 ← anExpr a st v
    anExpr a st1 s
  | .binop l op r ln =>
    let st1 :=
      if (op = Op.add ∨ op = Op.mult) ∧ 0 < a then
        { st with repeated_computations :=
            st.repeated_computations ++ [(ln, Expr.binop l op r ln)] }
      else st
    do
      let st2 ← anExpr a st1 l
      anExpr a st2 r
  | .tuple elts => anExprs a st elts

/-- Visit of an expression list in order. -/
def anExprs (a : Nat) (st : AnalyzerState) : List Expr → Except String AnalyzerState
  | [] => pure st
  | e :: rest => do
    let st1 ← anExpr a st e
    anExprs a st1 rest

end

/-- `StaticAnalyzer.analyze` after parsing: visit the statements of the module with
zero enclosing loops, starting from the current lists `st` of the instance
(`analyze` never resets them), and return the lists of the instance. -/
def analyze (st : AnalyzerState) (body : List Stmt) : Except String AnalyzerState :=
  anStmts 0 st body

/-!
## Rewrite Engine — `RefactoringEngine` (src/utils/refactoring_engine.py)

The engine is an `ast.NodeTransformer`.  `visit_Module` assigns parents, runs
`generic_visit` over the module body, and afterwards injects
`import numpy as np` when the rewritten tree uses `np.`.  The per-loop rules
are `flatten_nested_loop` (lines 79-134) and `vectorize_numeric_loop`
(lines 157-182); both import helpers (`ensure_itertools_import`, lines
136-155, and `ensure_numpy_import`, lines 218-241) insert into the *module*
body, found through the `.parent` chain, while that very list is being
iterated by `NodeTransformer.generic_visit`.  `generic_visit` iterates the
live list by index and finally overwrites it wholesale
(`old_value[:] = new_values`), so a mid-pass insertion at a position at or
before the current index makes the statement just visited be yielded and
visited a second time, and the inserted import itself is discarded by the
final overwrite unless the iterator reaches it.  The module driver below
(`moduleStep`) models exactly that: the in-place mutation of the visited element
is written back at its shifted position and the pass result is the list of
visit results.
-/

/-- `isinstance(stmt, ast.For)`. -/
def isForStmt : Stmt → Bool
  | .forS .. => true
  | _ => false

/-- `isinstance(e, ast.Name)`. -/
def isNameE : Expr → Bool
  | .name _ => true
  | _ => false

/-- `isinstance(e, ast.Call)`. -/
def isCallE : Expr → Bool
  | .call .. => true
  | _ => false

/-- `isinstance(stmt, ast.Import) and any(alias.name == nm for alias in stmt.names)`. -/
def isImportOfName (nm : String) : Stmt → Bool
  | .pyImport names => names.any (fun a => a.name == nm)
  | _ => false

/-- The already-present scan shared by both ensure helpers: some `ast.Import`
statement of the module body mentions the module name `nm`. -/
def hasImportName (nm : String) (body : List Stmt) : Bool :=
  body.any (isImportOfName nm)

/-- `isinstance(stmt, ast.Expr) and isinstance(stmt.value, ast.Str)`: a
docstring-like expression statement (line 233). -/
def isDocstringStmt : Stmt → Bool
  | .exprS (.const (.strC _)) => true
  | _ => false

/-- The Python `list.insert`: insert at position `n`, clipped to the end. -/
def insertAt (n : Nat) (x : α) (l : List α) : List α :=
  l.take n ++ x :: l.drop n

/-- The insertion index of `ensure_numpy_import` (lines 230-235): the index of
the first statement that is not a docstring expression, and 0 when every
statement is one (the `break` never fires, leaving the initial value). -/
def numpyInsertIdx (body : List Stmt) : Nat :=
  match body.findIdx? (fun s => !isDocstringStmt s) with
  | some i => i
  | none => 0

/-- `ensure_numpy_import` (lines 218-241) acting on the module body: return it
unchanged when an `Import` naming `numpy` is present, otherwise insert
`import numpy as np` at `numpyInsertIdx`. -/
def ensureNumpyImport (body : List Stmt) : List Stmt :=
  if hasImportName "numpy" body then body
  else insertAt (numpyInsertIdx body) (.pyImport [⟨"numpy", some "np"⟩]) body

/-- `ensure_itertools_import` (lines 136-155) acting on the module body:
return it unchanged when an `Import` naming `itertools` is present, otherwise
insert `import itertools` at index 0. -/
def ensureItertoolsImport (body : List Stmt) : List Stmt :=
  if hasImportName "itertools" body then body
  else .pyImport [⟨"itertools", none⟩] :: body

/-- `flatten_nested_loop` (lines 79-134) as a pure function on the loop node:
`some flattened` when the rule fires (the code also runs
`ensure_itertools_import` then), `none` when the code returns `outer_loop`
unchanged.  The rule fires when the body holds exactly one `ast.For`
statement, both targets are `Name`s and both iters are `Call`s; the new loop
pairs the targets, iterates `itertools.product` of the two iters, splices the
inner body in place of the inner loop (keeping every other body statement,
the `stmt is inner_loop` test picks out the unique `For`), and is built with
`orelse=[]`. -/
def flattenNestedLoop : Stmt → Option Stmt
  | .forS target iter body _orelse ln =>
    match body.filter isForStmt with
    | [inner] =>
      match inner with
      | .forS itarget iiter ibody _iorelse _iln =>
        if isNameE target && isNameE itarget && isCallE iter && isCallE iiter then
          some (.forS (.tuple [target, itarget])
            (.call (.attr (.name "itertools") "product") [iter, iiter])
            (body.foldr (fun s acc => if isForStmt s then ibody ++ acc else s :: acc) [])
            [] ln)
        else none
      | _ => none
    | _ => none
  | _ => none

/-- `build_vectorized_code` (lines 184-216): the single replacement assignment
`arr = np.array(arr) + value`, whose operator is always `ast.Add` and whose
right operand is the entire original right-hand side of the loop body. -/
def buildVectorizedCode (arrName : String) (value : Expr) : Stmt :=
  .assign [.name arrName]
    (.binop (.call (.attr (.name "np") "array") [.name arrName]) .add value 0)

/-- `vectorize_numeric_loop` (lines 157-182) as a pure function on the loop
node: `some replacement` when the rule fires (the code also runs
`ensure_numpy_import` then, through `build_vectorized_code`), `none` when the
code returns the loop unchanged.  The rule fires when the iter is a `Call` of
the `Name` `range` (with any arguments) and the body is exactly one `Assign`
with one `Subscript` target whose value is a `Name`; the right-hand side is
never inspected. -/
def vectorizeNumericLoop : Stmt → Option Stmt
  | .forS _target iter body _orelse _ln =>
    match iter with
    | .call (.name "range") _ =>
      match body with
      | [.assign [.subscript (.name arrName) _] value] =>
        some (buildVectorizedCode arrName value)
      | _ => none
    | _ => none
  | _ => none

mutual

/-- `RefactoringEngine.visit` of one statement, threading the live module body
(the target of the ensure helpers) as state.  Returns
`(visit result, node after generic_visit, module body)`.  For a `for`
statement: `generic_visit` first rebuilds the body and orelse lists from the
child visit results (that is the in-place `old_value[:] = new_values`), then
`flatten_nested_loop` is attempted (running `ensure_itertools_import` when it
fires), then `vectorize_numeric_loop` (running `ensure_numpy_import` when it
fires; the module is always found through the `.parent` chain).  Statements
of the other modelled kinds contain no statements, so `generic_visit` leaves
them unchanged. -/
def engineVisitStmt : Stmt → List Stmt → Stmt × Stmt × List Stmt
  | .forS target iter body orelse ln, mb =>
    let (body2, mb1) := engineVisitStmts body mb
    let (orelse2, mb2) := engineVisitStmts orelse mb1
    let node : Stmt := .forS target iter body2 orelse2 ln
    match flattenNestedLoop node with
    | some f => (f, node, ensureItertoolsImport mb2)
    | none =>
      match vectorizeNumericLoop node with
      | some v => (v, node, ensureNumpyImport mb2)
      | none => (node, node, mb2)
  | s, mb => (s, s, mb)

/-- `generic_visit` over a statement-list field other than the module body:
each element is visited in order and the list is rebuilt from the visit
results; the ensure helpers never insert into such a list. -/
def engineVisitStmts : List Stmt → List Stmt → List Stmt × List Stmt
  | [], mb => ([], mb)
  | s :: rest, mb =>
    let (r, _smut, mb1) := engineVisitStmt s mb
    let (rs, mb2) := engineVisitStmts rest mb1
    (r :: rs, mb2)

end

/-- `isinstance(child.value, ast.Name) and child.value.id == "np"`
(lines 21-22). -/
def isNpName : Expr → Bool
  | .name "np" => true
  | _ => false

mutual

/-- The per-expression walk of `contains_numpy_usage` (lines 10-24): an
`ast.Attribute` whose value is the `Name` `np` occurs somewhere. -/
def exprHasNp : Expr → Bool
  | .name _ => false
  | .const _ => false
  | .call f args => exprHasNp f || exprsHasNp args
  | .attr v _ => isNpName v || exprHasNp v
  | .subscript v s => exprHasNp v || exprHasNp s
  | .binop l _ r _ => exprHasNp l || exprHasNp r
  | .tuple elts => exprsHasNp elts

/-- `contains_numpy_usage` over an expression list. -/
def exprsHasNp : List Expr → Bool
  | [] => false
  | e :: rest => exprHasNp e || exprsHasNp rest

end

mutual

/-- `contains_numpy_usage` over one statement. -/
def stmtHasNp : Stmt → Bool
  | .forS target iter body orelse _ =>
    exprHasNp target || exprHasNp iter || stmtsHasNp body || stmtsHasNp orelse
  | .assign targets value => exprsHasNp targets || exprHasNp value
  | .augAssign target _ value => exprHasNp target || exprHasNp value
  | .pyImport _ => false
  | .exprS value => exprHasNp value
  | .passS => false

/-- `contains_numpy_usage` over a statement list. -/
def stmtsHasNp : List Stmt → Bool
  | [] => false
  | s :: rest => stmtHasNp s || stmtsHasNp rest

end

/-- `contains_numpy_usage` over the module body (lines 10-24). -/
def containsNumpyUsage (body : List Stmt) : Bool :=
  stmtsHasNp body

/-- The iteration of `NodeTransformer.generic_visit` over the live module
body: yield the element at index `i`, visit it (which may insert imports into
the live list at positions at or before `i`, shifting it), write its mutated
form back at its shifted position, collect the visit result, and advance the
index by one.  When the index passes the end, the collected results replace
the body (`old_value[:] = new_values`), discarding any still-unvisited
mid-pass insertion.  The fuel is the bound on the number of iterations; each
of the two ensure helpers inserts at most once per pass (afterwards the
injected import is present until the final overwrite), so two beyond the
initial length always suffices. -/
def moduleStep : Nat → List Stmt → Nat → List Stmt → List Stmt
  | 0, _, _, acc => acc
  | fuel + 1, body, i, acc =>
    if h : i < body.length then
      let s := body.get ⟨i, h⟩
      let (res, smut, body1) := engineVisitStmt s body
      let shift := body1.length - body.length
      let body2 := body1.set (i + shift) smut
      moduleStep fuel body2 (i + 1) (acc ++ [res])
    else acc

/-- `RefactoringEngine.visit` on the module (`visit_Module`, lines 26-40):
run `generic_visit` over the body with the live-list iteration, then, when
the resulting tree contains `np.` usage, run `ensure_numpy_import` once
more. -/
def engineRewrite (body : List Stmt) : List Stmt :=
  let newBody := moduleStep (body.length + 2) body 0 []
  if containsNumpyUsage newBody then ensureNumpyImport newBody else newBody

/-!
## Instance families used by the claims
-/

/-- The statement `import numpy as np` that `ensure_numpy_import` builds. -/
def npImportStmt : Stmt := .pyImport [⟨"numpy", some "np"⟩]

/-- The statement `import itertools` that `ensure_itertools_import` builds. -/
def itImportStmt : Stmt := .pyImport [⟨"itertools", none⟩]

/-- The loop `for idx in range(len(arr)): arr[idx] = arr[idx] + c` of claim
C1, general in the array name, index name, constant and line numbers. -/
def vecLoopG (arr idx : String) (c : Const) (ln vln : Nat) : Stmt :=
  .forS (.name idx) (.call (.name "range") [.call (.name "len") [.name arr]])
    [.assign [.subscript (.name arr) (.name idx)]
      (.binop (.subscript (.name arr) (.name idx)) .add (.const c) vln)] [] ln

/-- What `vectorize_numeric_loop` actually emits for `vecLoopG`: the single
assignment `arr = np.array(arr) + (arr[idx] + c)`. -/
def vecAssignG (arr idx : String) (c : Const) (vln : Nat) : Stmt :=
  buildVectorizedCode arr (.binop (.subscript (.name arr) (.name idx)) .add (.const c) vln)

/-- A vectorizable loop over the array named `a` (body `a[i] = a[i] + 10`),
used for the many-loops import-deduplication family. -/
def mkVecLoop (a : String) : Stmt := vecLoopG a "i" (.intC 10) 1 1

/-- A flattenable doubly-nested loop with outer variable `a`, used for the
itertools side of the import family. -/
def mkFlatLoop (a : String) : Stmt :=
  .forS (.name a) (.call (.name "range") [.const (.intC 5)])
    [.forS (.name "q") (.call (.name "range") [.const (.intC 6)]) [.passS] [] 2] [] 1

/-- `k` nested `for` loops over `range(5)`; the loop with `j` enclosing loops
carries line number `j`, innermost body `pass`.  `nestFrom j n` is the tower
of `n` loops whose outermost member already has `j` loop ancestors. -/
def nestFrom (j : Nat) : Nat → Stmt
  | 0 => .passS
  | n + 1 =>
    .forS (.name "i") (.call (.name "range") [.const (.intC 5)]) [nestFrom (j + 1) n] [] j

/-- Like `nestFrom`, but the innermost body is the expression statement
`x OP y` at line 99 instead of `pass`. -/
def nestBinFrom (op : Op) (j : Nat) : Nat → Stmt
  | 0 => .exprS (.binop (.name "x") op (.name "y") 99)
  | n + 1 =>
    .forS (.name "i") (.call (.name "range") [.const (.intC 5)]) [nestBinFrom op (j + 1) n] [] j

/-- The orelse list of a statement (empty for non-loops). -/
def stmtOrelse : Stmt → List Stmt
  | .forS _ _ _ oe _ => oe
  | _ => []

/-- The body list of a statement (empty for non-loops). -/
def stmtBody : Stmt → List Stmt
  | .forS _ _ b _ _ => b
  | _ => []

/-- Number of `Import` statements of the body that name the module `nm`. -/
def countImportName (nm : String) (body : List Stmt) : Nat :=
  body.countP (fun s => isImportOfName nm s)

/-- `iterBoundSafe iter` holds when the high-iteration check on this loop
iter cannot raise: whenever the iter is a `range(...)` call whose first
argument is a literal constant, that constant is an integer or a boolean
(the two kinds Python can compare with `1000`). -/
def iterBoundSafe : Expr → Bool
  | .call (.name "range") (arg :: _) =>
    match arg with
    | .const (.intC _) => true
    | .const (.boolC _) => true
    | .const _ => false
    | _ => true
  | _ => true

mutual

/-- Every loop bound of the statement is safe in the sense of
`iterBoundSafe`. -/
def stmtBoundsSafe : Stmt → Bool
  | .forS _ iter body orelse _ =>
    iterBoundSafe iter && stmtsBoundsSafe body && stmtsBoundsSafe orelse
  | _ => true

/-- Every loop bound of the statement list is safe. -/
def stmtsBoundsSafe : List Stmt → Bool
  | [] => true
  | s :: rest => stmtBoundsSafe s && stmtsBoundsSafe rest

end

/-- The flattened loop that `flatten_nested_loop` emits for `mkFlatLoop a`:
`for (a, q) in itertools.product(range(5), range(6)): pass`. -/
def flatG (a : String) : Stmt :=
  .forS (.tuple [.name a, .name "q"])
    (.call (.attr (.name "itertools") "product")
      [.call (.name "range") [.const (.intC 5)], .call (.name "range") [.const (.intC 6)]])
    [.passS] [] 1

/-- Claim C1 input: a module whose body is exactly the loop
`for i in range(len(arr)): arr[i] = arr[i] + 10`. -/
def c1Input : List Stmt := [vecLoopG "arr" "i" (.intC 10) 1 1]

/-- Modelled from the spec: the rewrite output claim C1 asserts for `c1Input` —
the loop replaced by the two-statement sequence `arr = np.array(arr)` (the
vector-array conversion) followed by `arr = arr + 10`, with the vector-array
dependency injected exactly once into the module.  This definition follows
the words of the spec, not the source; the source output is computed by
`engineRewrite`. -/
def c1SpecClaimedRewrite : List Stmt :=
  [npImportStmt,
   .assign [.name "arr"] (.call (.attr (.name "np") "array") [.name "arr"]),
   .assign [.name "arr"] (.binop (.name "arr") .add (.const (.intC 10)) 0)]

/-- Claim C2 counterexample inner loop: `for j in range(6): pass`. -/
def c2InnerEx : Stmt :=
  .forS (.name "j") (.call (.name "range") [.const (.intC 6)]) [.passS] [] 2

/-- Claim C2 counterexample: a loop whose body is one nested loop plus one
extra (non-loop) statement. -/
def c2LoopEx : Stmt :=
  .forS (.name "i") (.call (.name "range") [.const (.intC 5)]) [c2InnerEx, .passS] [] 1

/-- What `flatten_nested_loop` emits for `c2LoopEx`: the flattened loop with
the extra statement retained after the spliced inner body. -/
def c2FlatEx : Stmt :=
  .forS (.tuple [.name "i", .name "j"])
    (.call (.attr (.name "itertools") "product")
      [.call (.name "range") [.const (.intC 5)], .call (.name "range") [.const (.intC 6)]])
    [.passS, .passS] [] 1

/-- Claim C3 counterexample: `for i in range(len(arr)): arr[i] = arr[i] + other[i]`
— the right-hand side is not a literal constant. -/
def c3LoopEx : Stmt :=
  .forS (.name "i") (.call (.name "range") [.call (.name "len") [.name "arr"]])
    [.assign [.subscript (.name "arr") (.name "i")]
      (.binop (.subscript (.name "arr") (.name "i")) .add
        (.subscript (.name "other") (.name "i")) 2)] [] 1

/-- Claim C9 module: a doubly nested loop, producing one nested-loop finding. -/
def c9Mod : List Stmt :=
  [.forS (.name "i") (.call (.name "range") [.const (.intC 5)])
    [.forS (.name "j") (.call (.name "range") [.const (.intC 6)]) [.passS] [] 2] [] 1]

/-- The analyzer state after one `analyze` run over `c9Mod` from a fresh
instance: exactly one nested-loop finding. -/
def c9St1 : AnalyzerState := ⟨[(2, 1)], [], [], []⟩

/-!
## Helper lemmas
-/

/-- Writing back the element just read leaves a list unchanged. -/
theorem list_set_getElem_self (l : List α) (i : Nat) (h : i < l.length) :
    l.set i l[i] = l := by
  induction l generalizing i with
  | nil => simp at h
  | cons x xs ih =>
    cases i with
    | zero => simp
    | succ n => simp only [List.set_cons_succ, List.getElem_cons_succ]; rw [ih]

/-- Filtering for loops over a loop-free statement list gives the empty list. -/
theorem filter_isFor_eq_nil {l : List Stmt} (h : ∀ s ∈ l, isForStmt s = false) :
    l.filter isForStmt = [] := by
  induction l with
  | nil => rfl
  | cons x xs ih =>
    rw [List.filter_cons_of_neg]
    · exact ih fun s hs => h s (List.mem_cons_of_mem _ hs)
    · simp [h x (List.mem_cons_self x xs)]

/-- The splicing fold of `flatten_nested_loop` acts as the identity on a
loop-free prefix. -/
theorem foldr_splice_noFor {l : List Stmt} {ib init : List Stmt}
    (h : ∀ s ∈ l, isForStmt s = false) :
    l.foldr (fun s acc => if isForStmt s then ib ++ acc else s :: acc) init = l ++ init := by
  induction l with
  | nil => rfl
  | cons x xs ih =>
    simp only [List.foldr_cons, h x (List.mem_cons_self x xs)]
    simp only [Bool.false_eq_true, if_false, List.cons_append]
    rw [ih fun s hs => h s (List.mem_cons_of_mem _ hs)]

/-- `flatten_nested_loop` declines whenever the number of `For` statements in
the body is not exactly one. -/
theorem flattenNestedLoop_none_of_count (t it : Expr) (b oe : List Stmt) (ln : Nat)
    (h : (b.filter isForStmt).length ≠ 1) :
    flattenNestedLoop (.forS t it b oe ln) = none := by
  match hb : b.filter isForStmt with
  | [] => simp [flattenNestedLoop, hb]
  | [x] => rw [hb] at h; simp at h
  | x :: y :: rest => simp [flattenNestedLoop, hb]

/-- `flatten_nested_loop` fires on a body that is one nested loop surrounded
by loop-free statements (with `Name` targets and `Call` iters), keeping the
surrounding statements, splicing the inner body in place of the inner loop,
and emitting an empty orelse, independently of both original orelse lists. -/
theorem flattenNestedLoop_fires (pre post ibody iorelse oe : List Stmt) (s1 s2 : String)
    (f1 f2 : Expr) (args1 args2 : List Expr) (ln iln : Nat)
    (hpre : ∀ s ∈ pre, isForStmt s = false) (hpost : ∀ s ∈ post, isForStmt s = false) :
    flattenNestedLoop (.forS (.name s1) (.call f1 args1)
      (pre ++ .forS (.name s2) (.call f2 args2) ibody iorelse iln :: post) oe ln)
    = some (.forS (.tuple [.name s1, .name s2])
        (.call (.attr (.name "itertools") "product") [.call f1 args1, .call f2 args2])
        (pre ++ (ibody ++ post)) [] ln) := by
  have hfil : (pre ++ .forS (.name s2) (.call f2 args2) ibody iorelse iln :: post).filter isForStmt
      = [.forS (.name s2) (.call f2 args2) ibody iorelse iln] := by
    rw [List.filter_append, filter_isFor_eq_nil hpre, List.filter_cons_of_pos (by rfl),
      filter_isFor_eq_nil hpost]
    rfl
  have hsplice : (pre ++ .forS (.name s2) (.call f2 args2) ibody iorelse iln :: post).foldr
      (fun s acc => if isForStmt s then ibody ++ acc else s :: acc) []
      = pre ++ (ibody ++ post) := by
    rw [List.foldr_append, List.foldr_cons, foldr_splice_noFor hpost]
    have hfor : isForStmt (.forS (.name s2) (.call f2 args2) ibody iorelse iln) = true := rfl
    rw [hfor]
    simp only [if_true, List.append_nil]
    exact foldr_splice_noFor hpre
  simp only [flattenNestedLoop, hfil]
  simp only [isNameE, isCallE, Bool.and_self, if_true]
  rw [hsplice]

/-- Whenever `flatten_nested_loop` fires, the emitted loop carries an empty
orelse and its body statements come only from the outer body or the spliced
inner body. -/
theorem flattenNestedLoop_some_shape (loop res : Stmt)
    (h : flattenNestedLoop loop = some res) :
    stmtOrelse res = [] ∧
      ∀ s ∈ stmtBody res, s ∈ stmtBody loop ∨
        ∃ inner, inner ∈ stmtBody loop ∧ isForStmt inner = true ∧ s ∈ stmtBody inner := by
  match loop with
  | .passS | .assign _ _ | .augAssign _ _ _ | .pyImport _ | .exprS _ =>
    simp [flattenNestedLoop] at h
  | .forS t it b oe ln =>
    match hb : b.filter isForStmt with
    | [] => simp [flattenNestedLoop, hb] at h
    | x :: y :: rest => simp [flattenNestedLoop, hb] at h
    | [inner] =>
      match inner with
      | .passS | .assign _ _ | .augAssign _ _ _ | .pyImport _ | .exprS _ =>
        simp [flattenNestedLoop, hb] at h
      | .forS it2 ii2 ib ioe iln =>
        have hmem : Stmt.forS it2 ii2 ib ioe iln ∈ b
            ∧ isForStmt (Stmt.forS it2 ii2 ib ioe iln) = true := by
          have hx : Stmt.forS it2 ii2 ib ioe iln ∈ b.filter isForStmt := by
            rw [hb]; exact List.mem_singleton.mpr rfl
          exact ⟨(List.mem_filter.mp hx).1, (List.mem_filter.mp hx).2⟩
        simp only [flattenNestedLoop, hb] at h
        by_cases hc : (isNameE t && isNameE it2 && isCallE it && isCallE ii2) = true
        · rw [if_pos hc] at h
          cases h
          refine ⟨rfl, ?_⟩
          intro s hs
          simp only [stmtBody] at hs ⊢
          have hfold : ∀ (l : List Stmt) (init : List Stmt),
              s ∈ l.foldr (fun st acc => if isForStmt st then ib ++ acc else st :: acc) init →
                (s ∈ l ∨ s ∈ ib) ∨ s ∈ init := by
            intro l
            induction l with
            | nil => intro init hi; exact Or.inr hi
            | cons z zs ih =>
              intro init hi
              simp only [List.foldr_cons] at hi
              by_cases hz : isForStmt z = true
              · rw [if_pos hz] at hi
                rcases List.mem_append.mp hi with hib | hrest
                · exact Or.inl (Or.inr hib)
                · rcases ih init hrest with h1 | h2
                  · rcases h1 with h1a | h1b
                    · exact Or.inl (Or.inl (List.mem_cons_of_mem _ h1a))
                    · exact Or.inl (Or.inr h1b)
                  · exact Or.inr h2
              · rw [if_neg hz] at hi
                rcases List.mem_cons.mp hi with rfl | hrest
                · exact Or.inl (Or.inl (List.mem_cons_self _ _))
                · rcases ih init hrest with h1 | h2
                  · rcases h1 with h1a | h1b
                    · exact Or.inl (Or.inl (List.mem_cons_of_mem _ h1a))
                    · exact Or.inl (Or.inr h1b)
                  · exact Or.inr h2
          rcases hfold b [] hs with h1 | h2
          · rcases h1 with h1a | h1b
            · exact Or.inl h1a
            · exact Or.inr ⟨_, hmem.1, hmem.2, h1b⟩
          · simp at h2
        · rw [if_neg hc] at h
          cases h

/-!
## Claims C2, C3, C10 — the per-loop rewrite rules
-/

/-- C2 (corrected): the flattening precondition requires exactly one nested
`For` statement among the body statements — it does not require the body to
contain nothing else.  A body with a number of nested loops different from
one is returned unchanged, but a body of one nested loop plus extra non-loop
statements IS flattened, with the extra statements retained around the
spliced inner body. -/
theorem c2_flatten_precondition :
    (∀ (t it : Expr) (b oe : List Stmt) (ln : Nat),
        (b.filter isForStmt).length ≠ 1 →
          flattenNestedLoop (.forS t it b oe ln) = none)
    ∧ (∀ (pre post ibody iorelse oe : List Stmt) (s1 s2 : String) (f1 f2 : Expr)
        (args1 args2 : List Expr) (ln iln : Nat),
        (∀ s ∈ pre, isForStmt s = false) → (∀ s ∈ post, isForStmt s = false) →
          flattenNestedLoop (.forS (.name s1) (.call f1 args1)
              (pre ++ .forS (.name s2) (.call f2 args2) ibody iorelse iln :: post) oe ln)
            = some (.forS (.tuple [.name s1, .name s2])
                (.call (.attr (.name "itertools") "product")
                  [.call f1 args1, .call f2 args2])
                (pre ++ (ibody ++ post)) [] ln)) :=
  ⟨flattenNestedLoop_none_of_count,
   fun pre post ibody iorelse oe s1 s2 f1 f2 args1 args2 ln iln hpre hpost =>
     flattenNestedLoop_fires pre post ibody iorelse oe s1 s2 f1 f2 args1 args2 ln iln hpre hpost⟩

/-- Witness for C2: the rule fires on a body of one nested loop plus one
extra `pass` statement (keeping the `pass`), and declines on a body with two
nested loops. -/
theorem c2_flatten_precondition_witness :
    flattenNestedLoop c2LoopEx = some c2FlatEx
      ∧ flattenNestedLoop (.forS (.name "i") (.call (.name "range") [.const (.intC 5)])
          [c2InnerEx, c2InnerEx] [] 1) = none := by
  constructor
  · have h := c2_flatten_precondition.2 [] [.passS] [.passS] [] [] "i" "j"
      (.name "range") (.name "range") [.const (.intC 5)] [.const (.intC 6)] 1 2
      (by intro s hs; simp at hs) (by intro s hs; simp at hs; rw [hs]; rfl)
    simpa [c2LoopEx, c2InnerEx, c2FlatEx] using h
  · exact c2_flatten_precondition.1 _ _ _ _ _ (by rw [show ([c2InnerEx, c2InnerEx].filter isForStmt) = [c2InnerEx, c2InnerEx] from rfl]; simp)

/-- Counterexample to C2 as stated: for the loop whose body is one nested
loop plus one extra statement, the engine does NOT return a tree equal to
the input — the flattening rule fires and the visit returns the flattened
loop. -/
theorem c2_flatten_counterexample :
    flattenNestedLoop c2LoopEx = some c2FlatEx
      ∧ (engineVisitStmt c2LoopEx [c2LoopEx]).1 ≠ c2LoopEx :=
  ⟨rfl, fun h => nomatch h⟩

/-- C3 (corrected): `vectorize_numeric_loop` never inspects the right-hand
side.  For every loop over a `range(...)` call whose single body statement
assigns to a subscript of a plain name, the rule fires whatever the
right-hand side is, emitting `arr = np.array(arr) + rhs`. -/
theorem c3_vectorize_any_rhs (t : Expr) (args : List Expr) (arr : String)
    (idx rhs : Expr) (oe : List Stmt) (ln : Nat) :
    vectorizeNumericLoop (.forS t (.call (.name "range") args)
      [.assign [.subscript (.name arr) idx] rhs] oe ln)
    = some (buildVectorizedCode arr rhs) := rfl

/-- Counterexample to C3 as stated: for
`for i in range(len(arr)): arr[i] = arr[i] + other[i]` — right-hand side not
a literal constant — the vectorization rule DOES fire and the engine does
not return the loop node unchanged. -/
theorem c3_vectorize_counterexample :
    vectorizeNumericLoop c3LoopEx
        = some (buildVectorizedCode "arr"
            (.binop (.subscript (.name "arr") (.name "i")) .add
              (.subscript (.name "other") (.name "i")) 2))
      ∧ (engineVisitStmt c3LoopEx [c3LoopEx]).1 ≠ c3LoopEx :=
  ⟨rfl, fun h => nomatch h⟩

/-- C10 (confirmed): whenever the flattening rule fires, the emitted loop has
an empty orelse and its body statements come only from the outer body or the
spliced inner body; the rule result is entirely independent of the orelse
list of the outer loop and of the orelse list of the inner loop, so
non-empty else blocks do not block the rule and their statements are absent
from the rewritten loop. -/
theorem c10_flatten_drops_orelse :
    (∀ (loop res : Stmt), flattenNestedLoop loop = some res →
        stmtOrelse res = [] ∧
          ∀ s ∈ stmtBody res, s ∈ stmtBody loop ∨
            ∃ inner, inner ∈ stmtBody loop ∧ isForStmt inner = true ∧ s ∈ stmtBody inner)
    ∧ (∀ (t it : Expr) (b oe oe2 : List Stmt) (ln : Nat),
        flattenNestedLoop (.forS t it b oe ln) = flattenNestedLoop (.forS t it b oe2 ln))
    ∧ (∀ (pre post ibody ioe ioe2 oe : List Stmt) (s1 s2 : String) (f1 f2 : Expr)
        (args1 args2 : List Expr) (ln iln : Nat),
        (∀ s ∈ pre, isForStmt s = false) → (∀ s ∈ post, isForStmt s = false) →
          flattenNestedLoop (.forS (.name s1) (.call f1 args1)
              (pre ++ .forS (.name s2) (.call f2 args2) ibody ioe iln :: post) oe ln)
            = flattenNestedLoop (.forS (.name s1) (.call f1 args1)
              (pre ++ .forS (.name s2) (.call f2 args2) ibody ioe2 iln :: post) oe ln)) :=
  ⟨flattenNestedLoop_some_shape,
   fun _ _ _ _ _ _ => rfl,
   fun pre post ibody ioe ioe2 oe s1 s2 f1 f2 args1 args2 ln iln hpre hpost =>
     (flattenNestedLoop_fires pre post ibody ioe oe s1 s2 f1 f2 args1 args2 ln iln
        hpre hpost).trans
       (flattenNestedLoop_fires pre post ibody ioe2 oe s1 s2 f1 f2 args1 args2 ln iln
        hpre hpost).symm⟩

/-- Witness for C10: a concrete nested loop whose outer and inner loops both
carry non-empty else blocks still flattens, and the result has an empty
orelse with body statements drawn from the original bodies. -/
theorem c10_flatten_drops_orelse_witness :
    stmtOrelse (Stmt.forS (.tuple [.name "i", .name "j"])
        (.call (.attr (.name "itertools") "product")
          [.call (.name "range") [.const (.intC 5)], .call (.name "range") [.const (.intC 6)]])
        [.passS] [] 1) = []
      ∧ ∀ s ∈ stmtBody (Stmt.forS (.tuple [.name "i", .name "j"])
          (.call (.attr (.name "itertools") "product")
            [.call (.name "range") [.const (.intC 5)], .call (.name "range") [.const (.intC 6)]])
          [.passS] [] 1),
          s ∈ stmtBody (Stmt.forS (.name "i") (.call (.name "range") [.const (.intC 5)])
              [.forS (.name "j") (.call (.name "range") [.const (.intC 6)])
                [.passS] [.exprS (.name "innerElse")] 2]
              [.exprS (.name "outerElse")] 1) ∨
            ∃ inner, inner ∈ stmtBody (Stmt.forS (.name "i")
                (.call (.name "range") [.const (.intC 5)])
                [.forS (.name "j") (.call (.name "range") [.const (.intC 6)])
                  [.passS] [.exprS (.name "innerElse")] 2]
                [.exprS (.name "outerElse")] 1)
              ∧ isForStmt inner = true ∧ s ∈ stmtBody inner :=
  c10_flatten_drops_orelse.1 _ _ rfl

/-!
## Analyzer helper lemmas
-/

/-- Bind on the Except monad commutes with mapping a state transformer `g`
over the result when the continuation does. -/
theorem except_bind_map_comm {g : AnalyzerState → AnalyzerState}
    (m0 : Except String AnalyzerState)
    (f f0 : AnalyzerState → Except String AnalyzerState)
    (hf : ∀ x, f (g x) = (f0 x).map g) :
    ((m0.map g) >>= f) = (m0 >>= f0).map g := by
  cases m0 with
  | error e => rfl
  | ok x =>
    show f (g x) = _
    rw [hf x]
    rfl

/-- The high-iteration check run from an accumulated state equals the check
run from the second state with the first state appended in front. -/
theorem highIterCheck_append (ln : Nat) (it : Expr) (st st0 : AnalyzerState) :
    highIterCheck ln it (stateAppend st st0) = (highIterCheck ln it st0).map (stateAppend st) := by
  unfold highIterCheck
  split
  · split
    · rename_i c
      simp only [Bind.bind, Except.bind]
      cases hc : constGtThreshold c with
      | error e => rfl
      | ok b =>
        cases b with
        | false => rfl
        | true =>
          simp only [if_true, Pure.pure, Except.pure, Except.map, stateAppend]
          simp
    · rfl
  · rfl

mutual

/-- Visiting a statement from an accumulated state appends the same findings:
the visit only ever appends to the four lists, so the first state passes
through unchanged in front. -/
theorem anStmt_append (a : Nat) (st st0 : AnalyzerState) (s : Stmt) :
    anStmt a (stateAppend st st0) s = (anStmt a st0 s).map (stateAppend st) := by
  cases s with
  | forS t it b oe ln =>
    simp only [anStmt]
    have hite : (if 0 < a then
          { stateAppend st st0 with
              nested_loops := (stateAppend st st0).nested_loops ++ [(ln, a)] }
        else stateAppend st st0)
        = stateAppend st (if 0 < a then
            { st0 with nested_loops := st0.nested_loops ++ [(ln, a)] } else st0) := by
      by_cases h : 0 < a <;> simp [h, stateAppend]
    rw [hite, highIterCheck_append]
    apply except_bind_map_comm
    intro x
    rw [anExpr_append]
    apply except_bind_map_comm
    intro y
    rw [anExpr_append]
    apply except_bind_map_comm
    intro z
    rw [anStmts_append]
    apply except_bind_map_comm
    intro w
    rw [anStmts_append]
  | assign targets value =>
    simp only [anStmt]
    rw [anExprs_append]
    apply except_bind_map_comm
    intro x
    rw [anExpr_append]
  | augAssign t o v =>
    simp only [anStmt]
    rw [anExpr_append]
    apply except_bind_map_comm
    intro x
    rw [anExpr_append]
  | pyImport names => rfl
  | exprS v =>
    simp only [anStmt]
    rw [anExpr_append]
  | passS => rfl

/-- List version of `anStmt_append`. -/
theorem anStmts_append (a : Nat) (st st0 : AnalyzerState) (l : List Stmt) :
    anStmts a (stateAppend st st0) l = (anStmts a st0 l).map (stateAppend st) := by
  cases l with
  | nil => rfl
  | cons s rest =>
    simp only [anStmts]
    rw [anStmt_append]
    apply except_bind_map_comm
    intro x
    rw [anStmts_append]

/-- Expression version of `anStmt_append`. -/
theorem anExpr_append (a : Nat) (st st0 : AnalyzerState) (e : Expr) :
    anExpr a (stateAppend st st0) e = (anExpr a st0 e).map (stateAppend st) := by
  cases e with
  | name _ => rfl
  | const _ => rfl
  | call f args =>
    simp only [anExpr]
    rw [anExpr_append]
    apply except_bind_map_comm
    intro x
    rw [anExprs_append]
  | attr v _ =>
    simp only [anExpr]
    rw [anExpr_append]
  | subscript v s =>
    simp only [anExpr]
    rw [anExpr_append]
    apply except_bind_map_comm
    intro x
    rw [anExpr_append]
  | binop l op r ln =>
    simp only [anExpr]
    have hite : (if (op = Op.add ∨ op = Op.mult) ∧ 0 < a then
          { stateAppend st st0 with
              repeated_computations :=
                (stateAppend st st0).repeated_computations ++ [(ln, Expr.binop l op r ln)] }
        else stateAppend st st0)
        = stateAppend st (if (op = Op.add ∨ op = Op.mult) ∧ 0 < a then
            { st0 with repeated_computations :=
                st0.repeated_computations ++ [(ln, Expr.binop l op r ln)] } else st0) := by
      by_cases h : (op = Op.add ∨ op = Op.mult) ∧ 0 < a <;> simp [h, stateAppend]
    rw [hite, anExpr_append]
    apply except_bind_map_comm
    intro x
    rw [anExpr_append]
  | tuple elts =>
    simp only [anExpr]
    rw [anExprs_append]

/-- Expression-list version of `anStmt_append`. -/
theorem anExprs_append (a : Nat) (st st0 : AnalyzerState) (l : List Expr) :
    anExprs a (stateAppend st st0) l = (anExprs a st0 l).map (stateAppend st) := by
  cases l with
  | nil => rfl
  | cons e rest =>
    simp only [anExprs]
    rw [anExpr_append]
    apply except_bind_map_comm
    intro x
    rw [anExprs_append]

end

/-- Appending the empty initial state on the right is the identity. -/
theorem stateAppend_initState (s : AnalyzerState) : stateAppend s initState = s := by
  simp [stateAppend, initState]

mutual

/-- Expression visits always succeed and never touch the high-iteration
list. -/
theorem anExpr_ok_high (a : Nat) (st : AnalyzerState) (e : Expr) :
    ∃ st2, anExpr a st e = .ok st2 ∧ st2.high_iterations = st.high_iterations := by
  cases e with
  | name _ => exact ⟨st, rfl, rfl⟩
  | const _ => exact ⟨st, rfl, rfl⟩
  | call f args =>
    obtain ⟨x, hx, hhx⟩ := anExpr_ok_high a st f
    obtain ⟨y, hy, hhy⟩ := anExprs_ok_high a x args
    exact ⟨y, by simp only [anExpr, hx, Bind.bind, Except.bind, hy], by rw [hhy, hhx]⟩
  | attr v _ =>
    obtain ⟨x, hx, hhx⟩ := anExpr_ok_high a st v
    exact ⟨x, by simp only [anExpr, hx], hhx⟩
  | subscript v s =>
    obtain ⟨x, hx, hhx⟩ := anExpr_ok_high a st v
    obtain ⟨y, hy, hhy⟩ := anExpr_ok_high a x s
    exact ⟨y, by simp only [anExpr, hx, Bind.bind, Except.bind, hy], by rw [hhy, hhx]⟩
  | binop l op r ln =>
    have hh1 : (if (op = Op.add ∨ op = Op.mult) ∧ 0 < a then
        { st with repeated_computations :=
            st.repeated_computations ++ [(ln, Expr.binop l op r ln)] }
        else st).high_iterations = st.high_iterations := by
      by_cases h : (op = Op.add ∨ op = Op.mult) ∧ 0 < a <;> simp [h]
    obtain ⟨x, hx, hhx⟩ := anExpr_ok_high a (if (op = Op.add ∨ op = Op.mult) ∧ 0 < a then
        { st with repeated_computations :=
            st.repeated_computations ++ [(ln, Expr.binop l op r ln)] }
        else st) l
    obtain ⟨y, hy, hhy⟩ := anExpr_ok_high a x r
    refine ⟨y, ?_, by rw [hhy, hhx, hh1]⟩
    simp only [anExpr, hx, Bind.bind, Except.bind, hy]
  | tuple elts =>
    obtain ⟨x, hx, hhx⟩ := anExprs_ok_high a st elts
    exact ⟨x, by simp only [anExpr, hx], hhx⟩

/-- Expression-list version of `anExpr_ok_high`. -/
theorem anExprs_ok_high (a : Nat) (st : AnalyzerState) (l : List Expr) :
    ∃ st2, anExprs a st l = .ok st2 ∧ st2.high_iterations = st.high_iterations := by
  cases l with
  | nil => exact ⟨st, rfl, rfl⟩
  | cons e rest =>
    obtain ⟨x, hx, hhx⟩ := anExpr_ok_high a st e
    obtain ⟨y, hy, hhy⟩ := anExprs_ok_high a x rest
    exact ⟨y, by simp only [anExprs, hx, Bind.bind, Except.bind, hy], by rw [hhy, hhx]⟩

end

/-- Under a safe bound the high-iteration check cannot raise. -/
theorem highIterCheck_ok (ln : Nat) (it : Expr) (st : AnalyzerState)
    (h : iterBoundSafe it = true) : ∃ st2, highIterCheck ln it st = .ok st2 := by
  unfold highIterCheck
  split
  · split
    · rename_i c
      cases c with
      | intC n =>
        simp only [constGtThreshold, Bind.bind, Except.bind]
        cases hgt : decide ((1000 : Int) < n) with
        | true => exact ⟨_, rfl⟩
        | false => exact ⟨st, rfl⟩
      | boolC b => exact ⟨st, rfl⟩
      | strC s => simp [iterBoundSafe] at h
      | noneC => simp [iterBoundSafe] at h
    · exact ⟨st, rfl⟩
  · exact ⟨st, rfl⟩

mutual

/-- With safe loop bounds, every statement visit returns normally. -/
theorem anStmt_ok (a : Nat) (st : AnalyzerState) (s : Stmt)
    (h : stmtBoundsSafe s = true) : ∃ st2, anStmt a st s = .ok st2 := by
  cases s with
  | forS t it b oe ln =>
    rw [stmtBoundsSafe, Bool.and_eq_true, Bool.and_eq_true] at h
    obtain ⟨⟨hit, hb⟩, hoe⟩ := h
    obtain ⟨x1, hx1⟩ := highIterCheck_ok ln it
      (if 0 < a then { st with nested_loops := st.nested_loops ++ [(ln, a)] } else st) hit
    obtain ⟨x2, hx2, _⟩ := anExpr_ok_high (a + 1) x1 t
    obtain ⟨x3, hx3, _⟩ := anExpr_ok_high (a + 1) x2 it
    obtain ⟨x4, hx4⟩ := anStmts_ok (a + 1) x3 b hb
    obtain ⟨x5, hx5⟩ := anStmts_ok (a + 1) x4 oe hoe
    exact ⟨x5, by simp only [anStmt, hx1, Bind.bind, Except.bind, hx2, hx3, hx4, hx5]⟩
  | assign targets value =>
    obtain ⟨x, hx, _⟩ := anExprs_ok_high a st targets
    obtain ⟨y, hy, _⟩ := anExpr_ok_high a x value
    exact ⟨y, by simp only [anStmt, hx, Bind.bind, Except.bind, hy]⟩
  | augAssign t o v =>
    obtain ⟨x, hx, _⟩ := anExpr_ok_high a st t
    obtain ⟨y, hy, _⟩ := anExpr_ok_high a x v
    exact ⟨y, by simp only [anStmt, hx, Bind.bind, Except.bind, hy]⟩
  | pyImport names => exact ⟨st, rfl⟩
  | exprS v =>
    obtain ⟨x, hx, _⟩ := anExpr_ok_high a st v
    exact ⟨x, by simp only [anStmt, hx]⟩
  | passS => exact ⟨st, rfl⟩

/-- List version of `anStmt_ok`. -/
theorem anStmts_ok (a : Nat) (st : AnalyzerState) (l : List Stmt)
    (h : stmtsBoundsSafe l = true) : ∃ st2, anStmts a st l = .ok st2 := by
  cases l with
  | nil => exact ⟨st, rfl⟩
  | cons s rest =>
    rw [stmtsBoundsSafe, Bool.and_eq_true] at h
    obtain ⟨x, hx⟩ := anStmt_ok a st s h.1
    obtain ⟨y, hy⟩ := anStmts_ok a x rest h.2
    exact ⟨y, by simp only [anStmts, hx, Bind.bind, Except.bind, hy]⟩

end

/-- Visiting the `nestFrom` tower from a positive ancestor count records one
nested-loop entry per loop, line number equal to depth. -/
theorem anStmt_nestFrom (n : Nat) : ∀ (j : Nat) (st : AnalyzerState), 0 < j →
    anStmt j st (nestFrom j n)
      = .ok { st with nested_loops := st.nested_loops ++ (List.range' j n).map (fun t => (t, t)) } := by
  induction n with
  | zero =>
    intro j st hj
    simp only [nestFrom, anStmt, List.range', List.map_nil, List.append_nil]
    rfl
  | succ n ih =>
    intro j st hj
    simp only [nestFrom, anStmt, highIterCheck, constGtThreshold, anExpr, anExprs, anStmts,
      if_pos hj, Bind.bind, Except.bind, Pure.pure, Except.pure,
      show (decide ((1000 : Int) < 5)) = false from rfl, Bool.false_eq_true, if_false]
    rw [ih (j + 1) _ (Nat.succ_pos j)]
    simp only [List.range'_succ, List.map_cons, List.append_assoc, List.cons_append,
      List.nil_append]

/-- Visiting the `nestBinFrom` tower from a positive ancestor count records
the nested-loop entries plus exactly one repeated-computation entry for the
innermost binary operation. -/
theorem anStmt_nestBinFrom (op : Op) (hop : op = Op.add ∨ op = Op.mult) (n : Nat) :
    ∀ (j : Nat) (st : AnalyzerState), 0 < j →
    anStmt j st (nestBinFrom op j n)
      = .ok { st with
          nested_loops := st.nested_loops ++ (List.range' j n).map (fun t => (t, t)),
          repeated_computations := st.repeated_computations
            ++ [(99, Expr.binop (.name "x") op (.name "y") 99)] } := by
  induction n with
  | zero =>
    intro j st hj
    simp only [nestBinFrom, anStmt, anExpr, if_pos (And.intro hop hj),
      Bind.bind, Except.bind, Pure.pure, Except.pure, List.range', List.map_nil, List.append_nil]
  | succ n ih =>
    intro j st hj
    simp only [nestBinFrom, anStmt, highIterCheck, constGtThreshold, anExpr, anExprs, anStmts,
      if_pos hj, Bind.bind, Except.bind, Pure.pure, Except.pure,
      show (decide ((1000 : Int) < 5)) = false from rfl, Bool.false_eq_true, if_false]
    rw [ih (j + 1) _ (Nat.succ_pos j)]
    simp only [List.range'_succ, List.map_cons, List.append_assoc, List.cons_append,
      List.nil_append]

/-- One half of claim C7, general in the operator. -/
theorem c7_half (op : Op) (hop : op = Op.add ∨ op = Op.mult) (k : Nat) :
    (analyze initState [nestBinFrom op 0 k]).map (fun s => s.repeated_computations)
      = .ok (if k = 0 then []
          else [(99, Expr.binop (.name "x") op (.name "y") 99)]) := by
  cases k with
  | zero =>
    simp only [analyze, nestBinFrom, anStmts, anStmt, anExpr,
      Bind.bind, Except.bind, Pure.pure, Except.pure]
    rw [if_neg (by simp)]
    rfl
  | succ n =>
    show (anStmts 0 initState [nestBinFrom op 0 (n + 1)]).map (fun s => s.repeated_computations) = _
    simp only [nestBinFrom, anStmts, anStmt, highIterCheck, constGtThreshold, anExpr, anExprs,
      Bind.bind, Except.bind, Pure.pure, Except.pure,
      show (decide ((1000 : Int) < 5)) = false from rfl, Bool.false_eq_true, if_false,
      Nat.lt_irrefl, if_false]
    rw [anStmt_nestBinFrom op hop n 1 _ Nat.one_pos]
    simp [Except.map, initState]

/-!
## Claims C4, C5, C6, C7, C9 — the Pattern Detector
-/

/-- C4 (confirmed): for a tower of `k` nested loops (the loop with `j`
enclosing loops carries line number `j`), the analyzer emits one NestedLoop
finding per loop that has at least one enclosing loop, with level equal to
the exact number of enclosing loops: the findings are `(j, j)` for
`j = 1, ..., k - 1` in document order, the outermost loop gets no entry, and
the depth is not capped in `k`. -/
theorem c4_nesting_depth (k : Nat) :
    (analyze initState [nestFrom 0 k]).map (fun s => s.nested_loops)
      = .ok ((List.range' 1 (k - 1)).map (fun j => (j, j))) := by
  cases k with
  | zero => rfl
  | succ n =>
    show (anStmts 0 initState [nestFrom 0 (n + 1)]).map (fun s => s.nested_loops) = _
    simp only [nestFrom, anStmts, anStmt, highIterCheck, constGtThreshold, anExpr, anExprs,
      Bind.bind, Except.bind, Pure.pure, Except.pure,
      show (decide ((1000 : Int) < 5)) = false from rfl, Bool.false_eq_true, if_false,
      Nat.lt_irrefl, if_false]
    rw [anStmt_nestFrom n 1 _ Nat.one_pos]
    simp [Except.map, initState, Nat.succ_sub_one]

/-- C5 (corrected): the high-iteration finding for a loop over
`range(a, ...)` depends only on the first argument: it is emitted exactly
when that first argument is an integer literal greater than 1000, whatever
the remaining arguments are — the number of arguments is not checked. -/
theorem c5_high_iteration_first_arg (a : Int) (rest : List Expr) (v : String) (ln : Nat) :
    (analyze initState
        [.forS (.name v) (.call (.name "range") (.const (.intC a) :: rest)) [.passS] [] ln]).map
        (fun s => s.high_iterations)
      = .ok (if 1000 < a then [(ln, Const.intC a)] else []) := by
  show (anStmts 0 ⟨[], [], [], []⟩ _).map _ = _
  simp only [anStmts, anStmt, highIterCheck, constGtThreshold, anExpr, anExprs,
    Bind.bind, Except.bind, Pure.pure, Except.pure, Nat.lt_irrefl, if_false]
  cases hgt : decide ((1000 : Int) < a) with
  | true =>
    obtain ⟨y, hy, hhy⟩ := anExprs_ok_high 1 ⟨[], [(ln, Const.intC a)], [], []⟩ rest
    simp only [if_true, List.nil_append, Nat.zero_add, hy, Except.map]
    rw [hhy, if_pos (of_decide_eq_true hgt)]
  | false =>
    obtain ⟨y, hy, hhy⟩ := anExprs_ok_high 1 ⟨[], [], [], []⟩ rest
    simp only [Bool.false_eq_true, if_false, List.nil_append, Nat.zero_add, hy, Except.map]
    rw [hhy, if_neg (of_decide_eq_false hgt)]

/-- Counterexample to C5 as stated: the two-argument call
`range(2000, 3000)` — not exactly one argument — still produces a
high-iteration finding. -/
theorem c5_high_iteration_counterexample :
    (analyze initState
        [.forS (.name "i")
          (.call (.name "range") [.const (.intC 2000), .const (.intC 3000)])
          [.passS] [] 1]).map (fun s => s.high_iterations)
      = .ok [(1, Const.intC 2000)]
    ∧ ([(1, Const.intC 2000)] : List (Nat × Const)) ≠ [] :=
  ⟨rfl, fun h => nomatch h⟩

/-- C6 (corrected): `analyze` returns normally on every module whose literal
range bounds are numeric (integer or boolean) — in particular a non-constant
(variable) bound never crashes and produces no high-iteration finding; the
string-bound counterexample shows the unrestricted claim is false. -/
theorem c6_analyze_totality :
    (∀ (st : AnalyzerState) (body : List Stmt), stmtsBoundsSafe body = true →
        ∃ r, analyze st body = .ok r)
    ∧ (∀ (v : String) (ln : Nat),
        (analyze initState
            [.forS (.name "i") (.call (.name "range") [.name v]) [.passS] [] ln]).map
            (fun s => s.high_iterations)
          = .ok []) :=
  ⟨fun st body h => anStmts_ok 0 st body h, fun _ _ => rfl⟩

/-- Witness for C6: a loop over `range(1500)` has safe bounds and analyzes
normally. -/
theorem c6_analyze_totality_witness :
    stmtsBoundsSafe
        [.forS (.name "i") (.call (.name "range") [.const (.intC 1500)]) [.passS] [] 1] = true
      ∧ ∃ r, analyze initState
          [.forS (.name "i") (.call (.name "range") [.const (.intC 1500)]) [.passS] [] 1]
          = .ok r :=
  ⟨rfl, c6_analyze_totality.1 initState _ rfl⟩

/-- Counterexample to C6 as stated: on the syntactically valid loop
`for i in range("a"): pass` the analyzer raises `TypeError` from the
comparison of the string bound with the threshold — `analyze` does not
return normally. -/
theorem c6_analyze_counterexample :
    analyze initState
        [.forS (.name "i") (.call (.name "range") [.const (.strC "a")]) [.passS] [] 1]
      = .error "TypeError: gt not supported between str and int" := rfl

/-- C7 (confirmed): a binary operation with operator `+` or `*` yields no
repeated-computation finding when it sits outside every loop (`k = 0`), and
exactly one finding when wrapped in `k` nested loops, for every `k` — the
upward walk stops at the first enclosing loop, so deeper nesting never adds
findings. -/
theorem c7_repeated_computation_scoping (k : Nat) :
    ((analyze initState [nestBinFrom Op.add 0 k]).map (fun s => s.repeated_computations)
        = .ok (if k = 0 then []
            else [(99, Expr.binop (.name "x") Op.add (.name "y") 99)]))
    ∧ ((analyze initState [nestBinFrom Op.mult 0 k]).map (fun s => s.repeated_computations)
        = .ok (if k = 0 then []
            else [(99, Expr.binop (.name "x") Op.mult (.name "y") 99)])) :=
  ⟨c7_half Op.add (Or.inl rfl) k, c7_half Op.mult (Or.inr rfl) k⟩

/-- C9 (corrected): `analyze` never resets the four instance lists, so the
second call on the same instance returns the findings of the first call
concatenated with a second copy of themselves — not a result equal to the
first call whenever any finding exists. -/
theorem c9_second_call_accumulates (body : List Stmt) (r1 : AnalyzerState)
    (h : analyze initState body = .ok r1) :
    analyze r1 body = .ok (stateAppend r1 r1) := by
  have h2 : analyze (stateAppend r1 initState) body
      = (analyze initState body).map (stateAppend r1) :=
    anStmts_append 0 r1 initState body
  rw [stateAppend_initState, h] at h2
  exact h2

/-- Witness for C9: on the doubly nested module the first call yields one
nested-loop finding and the second call on the same instance yields it
twice. -/
theorem c9_second_call_accumulates_witness :
    analyze c9St1 c9Mod = .ok (stateAppend c9St1 c9St1) :=
  c9_second_call_accumulates c9Mod c9St1 rfl

/-- Counterexample to C9 as stated: the result of the second `analyze` call
on the same instance differs from the result of the first call. -/
theorem c9_determinism_counterexample :
    analyze initState c9Mod = .ok c9St1 ∧ analyze c9St1 c9Mod ≠ .ok c9St1 :=
  ⟨rfl, fun h => nomatch h⟩

/-!
## Module-pass helper lemmas
-/

/-- When every element of the live body is visited without touching the
module body (no import insertion), the iteration maps the per-statement
transform over the remaining elements. -/
theorem moduleStep_stable (body : List Stmt) (tf : Stmt → Stmt)
    (H : ∀ (j : Nat) (h : j < body.length),
      engineVisitStmt body[j] body = (tf body[j], body[j], body)) :
    ∀ (fuel i : Nat) (acc : List Stmt), body.length ≤ i + fuel →
      moduleStep fuel body i acc = acc ++ (body.drop i).map tf := by
  intro fuel
  induction fuel with
  | zero =>
    intro i acc hle
    rw [List.drop_eq_nil_of_le (by omega)]
    simp [moduleStep]
  | succ n ih =>
    intro i acc hle
    by_cases hi : i < body.length
    · rw [moduleStep, dif_pos hi]
      simp only [List.get_eq_getElem, H i hi, List.length_set, Nat.sub_self, Nat.add_zero]
      rw [list_set_getElem_self body i hi]
      rw [ih (i + 1) (acc ++ [tf body[i]]) (by omega)]
      rw [List.drop_eq_getElem_cons hi, List.map_cons, List.append_assoc, List.singleton_append]
    · rw [moduleStep, dif_neg hi]
      rw [List.drop_eq_nil_of_le (Nat.le_of_not_lt hi)]
      simp

/-- A mapped family of non-import statements never satisfies the
already-imported scan. -/
theorem hasImportName_map_false {nm : String} {f : String → Stmt} (l : List String)
    (hf : ∀ a, isImportOfName nm (f a) = false) :
    hasImportName nm (List.map f l) = false := by
  induction l with
  | nil => rfl
  | cons x xs ih =>
    unfold hasImportName at ih ⊢
    simp only [List.map_cons, List.any_cons, hf x, ih, Bool.or_self]

/-- Visiting a vectorizable loop replaces it by the vectorized assignment and
runs `ensure_numpy_import` on the module body. -/
theorem visit_mkVecLoop_eq (a : String) (B : List Stmt) :
    engineVisitStmt (mkVecLoop a) B
      = (vecAssignG a "i" (.intC 10) 1, mkVecLoop a, ensureNumpyImport B) := rfl

/-- Visiting a flattenable nested loop replaces it by the flattened loop and
runs `ensure_itertools_import` on the module body. -/
theorem visit_mkFlatLoop_eq (a : String) (B : List Stmt) :
    engineVisitStmt (mkFlatLoop a) B
      = (flatG a, mkFlatLoop a, ensureItertoolsImport B) := rfl

/-- With no numpy import present and a non-docstring first statement,
`ensure_numpy_import` prepends `import numpy as np`. -/
theorem ensureNumpy_insert_of_absent (B : List Stmt)
    (hB : hasImportName "numpy" B = false)
    (h0 : numpyInsertIdx B = 0) :
    ensureNumpyImport B = npImportStmt :: B := by
  unfold ensureNumpyImport
  rw [hB]
  simp only [Bool.false_eq_true, if_false, h0, insertAt, List.take_zero, List.drop_zero,
    List.nil_append]
  rfl

/-- With no itertools import present, `ensure_itertools_import` prepends
`import itertools`. -/
theorem ensureItertools_insert_of_absent (B : List Stmt)
    (hB : hasImportName "itertools" B = false) :
    ensureItertoolsImport B = itImportStmt :: B := by
  unfold ensureItertoolsImport
  rw [hB]
  rfl

/-- A mapped family of numpy-free statements contains no `np.` usage. -/
theorem stmtsHasNp_map_false {f : String → Stmt} (l : List String)
    (hf : ∀ a, stmtHasNp (f a) = false) : stmtsHasNp (List.map f l) = false := by
  induction l with
  | nil => rfl
  | cons x xs ih =>
    simp only [List.map_cons, stmtsHasNp, hf x, ih, Bool.or_self]

/-- When an import of the name is present, `ensure_numpy_import` is the
identity. -/
theorem ensureNumpy_of_present (b : List Stmt) (h : hasImportName "numpy" b = true) :
    ensureNumpyImport b = b := by
  unfold ensureNumpyImport
  rw [h]
  rfl

/-- When an import of the name is present, `ensure_itertools_import` is the
identity. -/
theorem ensureItertools_of_present (b : List Stmt) (h : hasImportName "itertools" b = true) :
    ensureItertoolsImport b = b := by
  unfold ensureItertoolsImport
  rw [h]
  rfl

/-- Inserting a statement adds its import count on top of the count of the
original body. -/
theorem countImport_insertAt (nm : String) (n : Nat) (stmt : Stmt) (b : List Stmt) :
    countImportName nm (insertAt n stmt b)
      = countImportName nm b + (if isImportOfName nm stmt then 1 else 0) := by
  unfold countImportName insertAt
  rw [List.countP_append, List.countP_cons]
  conv_rhs => rw [← List.take_append_drop n b, List.countP_append]
  omega

/-- `ensure_numpy_import` leaves the numpy import count unchanged when it is
positive and raises it from zero to exactly one otherwise. -/
theorem countImport_ensureNumpy (b : List Stmt) :
    countImportName "numpy" (ensureNumpyImport b) = max 1 (countImportName "numpy" b) := by
  unfold ensureNumpyImport
  cases h : hasImportName "numpy" b with
  | true =>
    simp only [if_true]
    have hpos : 0 < countImportName "numpy" b := by
      unfold countImportName
      rw [List.countP_pos_iff]
      obtain ⟨a, ha, hpa⟩ := List.any_eq_true.mp h
      exact ⟨a, ha, hpa⟩
    omega
  | false =>
    simp only [Bool.false_eq_true, if_false]
    rw [countImport_insertAt]
    have hz : countImportName "numpy" b = 0 := by
      unfold countImportName
      rw [List.countP_eq_zero]
      exact fun a ha hpa => (List.any_eq_false.mp h) a ha hpa
    rw [hz,
      show isImportOfName "numpy" (Stmt.pyImport [⟨"numpy", some "np"⟩]) = true from rfl]
    rfl

/-- `ensure_itertools_import` leaves the itertools import count unchanged
when it is positive and raises it from zero to exactly one otherwise. -/
theorem countImport_ensureItertools (b : List Stmt) :
    countImportName "itertools" (ensureItertoolsImport b)
      = max 1 (countImportName "itertools" b) := by
  unfold ensureItertoolsImport
  cases h : hasImportName "itertools" b with
  | true =>
    simp only [if_true]
    have hpos : 0 < countImportName "itertools" b := by
      unfold countImportName
      rw [List.countP_pos_iff]
      obtain ⟨a, ha, hpa⟩ := List.any_eq_true.mp h
      exact ⟨a, ha, hpa⟩
    omega
  | false =>
    simp only [Bool.false_eq_true, if_false]
    unfold countImportName
    rw [List.countP_cons]
    have hz : List.countP (fun s => isImportOfName "itertools" s) b = 0 := by
      rw [List.countP_eq_zero]
      exact fun a ha hpa => (List.any_eq_false.mp h) a ha hpa
    rw [hz, show isImportOfName "itertools" (Stmt.pyImport [⟨"itertools", none⟩]) = true from rfl]
    rfl

/-- Full-pass computation: a module of `n + 1` vectorizable loops ends with
exactly one numpy import.  The import inserted mid-pass while visiting the
first loop is discarded by the final list overwrite of `generic_visit`, and
the post-pass `ensure_numpy_import` of `visit_Module` inserts it exactly
once. -/
theorem engineRewrite_vecFamily_numpy_count (x : String) (xs : List String) :
    countImportName "numpy" (engineRewrite (List.map mkVecLoop (x :: xs))) = 1 := by
  have hmapimp : hasImportName "numpy" (List.map mkVecLoop xs) = false :=
    hasImportName_map_false xs (fun a => rfl)
  have hB0 : hasImportName "numpy" (List.map mkVecLoop (x :: xs)) = false := by
    unfold hasImportName at hmapimp ⊢
    simp only [List.map_cons, List.any_cons, hmapimp]
    rfl
  have hins : ensureNumpyImport (List.map mkVecLoop (x :: xs))
      = npImportStmt :: List.map mkVecLoop (x :: xs) :=
    ensureNumpy_insert_of_absent _ hB0 rfl
  have hstable : moduleStep (xs.length + 1 + 1)
      (npImportStmt :: mkVecLoop x :: List.map mkVecLoop xs) 1 [vecAssignG x "i" (.intC 10) 1]
      = [vecAssignG x "i" (.intC 10) 1]
        ++ ((npImportStmt :: mkVecLoop x :: List.map mkVecLoop xs).drop 1).map
            (fun s => match vectorizeNumericLoop s with | some v => v | none => s) := by
    apply moduleStep_stable
    · intro j hj
      cases j with
      | zero => rfl
      | succ jj =>
        have hjj : jj < (List.map mkVecLoop (x :: xs)).length := by simpa using hj
        have hel : (npImportStmt :: mkVecLoop x :: List.map mkVecLoop xs)[jj + 1]
            = (List.map mkVecLoop (x :: xs))[jj] := by
          simp only [List.getElem_cons_succ, List.map_cons]
        rw [hel, List.getElem_map]
        rfl
    · simp
  rw [engineRewrite]
  rw [moduleStep, dif_pos (by simp : 0 < (List.map mkVecLoop (x :: xs)).length)]
  simp only [List.get_eq_getElem, List.map_cons, List.getElem_cons_zero]
  rw [show engineVisitStmt (mkVecLoop x) (mkVecLoop x :: List.map mkVecLoop xs)
      = (vecAssignG x "i" (.intC 10) 1, mkVecLoop x,
          npImportStmt :: mkVecLoop x :: List.map mkVecLoop xs) from by
    rw [visit_mkVecLoop_eq]
    simp only [List.map_cons] at hins
    rw [hins]]
  simp only [List.length_cons, List.length_map, Nat.add_sub_cancel_left, List.nil_append,
    Nat.zero_add, List.set_cons_succ, List.set_cons_zero]
  rw [hstable]
  simp only [List.drop_succ_cons, List.drop_zero, List.map_cons, List.singleton_append,
    List.map_map]
  rw [show (match vectorizeNumericLoop (mkVecLoop x) with
      | some v => v
      | none => mkVecLoop x) = vecAssignG x "i" (.intC 10) 1 from rfl]
  rw [show ((fun s => match vectorizeNumericLoop s with | some v => v | none => s) ∘ mkVecLoop)
      = (fun a => vecAssignG a "i" (.intC 10) 1) from funext fun a => rfl]
  rw [show containsNumpyUsage (vecAssignG x "i" (.intC 10) 1 :: vecAssignG x "i" (.intC 10) 1
      :: List.map (fun a => vecAssignG a "i" (.intC 10) 1) xs) = true from rfl]
  rw [if_pos rfl]
  have hNB : hasImportName "numpy" (vecAssignG x "i" (.intC 10) 1 :: vecAssignG x "i" (.intC 10) 1
      :: List.map (fun a => vecAssignG a "i" (.intC 10) 1) xs) = false := by
    unfold hasImportName
    simp only [List.any_cons]
    rw [show isImportOfName "numpy" (vecAssignG x "i" (.intC 10) 1) = false from rfl,
      show (List.map (fun a => vecAssignG a "i" (.intC 10) 1) xs).any (isImportOfName "numpy")
        = hasImportName "numpy" (List.map (fun a => vecAssignG a "i" (.intC 10) 1) xs) from rfl,
      show hasImportName "numpy" (List.map (fun a => vecAssignG a "i" (.intC 10) 1) xs) = false
        from hasImportName_map_false xs (fun a => rfl)]
    rfl
  rw [ensureNumpy_insert_of_absent _ hNB rfl]
  unfold countImportName
  rw [List.countP_cons]
  have h0 : (vecAssignG x "i" (.intC 10) 1 :: vecAssignG x "i" (.intC 10) 1
      :: List.map (fun a => vecAssignG a "i" (.intC 10) 1) xs).countP
        (fun s => isImportOfName "numpy" s) = 0 := by
    rw [List.countP_eq_zero]
    intro s hs
    rcases List.mem_cons.mp hs with rfl | hs
    · simp [vecAssignG, buildVectorizedCode, isImportOfName]
    rcases List.mem_cons.mp hs with rfl | hs
    · simp [vecAssignG, buildVectorizedCode, isImportOfName]
    rcases List.mem_map.mp hs with ⟨a, _, rfl⟩
    simp [vecAssignG, buildVectorizedCode, isImportOfName]
  rw [h0]
  simp [npImportStmt, isImportOfName]

/-- Full-pass computation: a module of `n + 1` flattenable nested loops ends
with NO itertools import at all — the import inserted mid-pass is discarded
by the final list overwrite of `generic_visit` and nothing reinserts it —
so in particular it is injected at most once. -/
theorem engineRewrite_flatFamily_itertools_count (x : String) (xs : List String) :
    countImportName "itertools" (engineRewrite (List.map mkFlatLoop (x :: xs))) = 0 := by
  have hB0 : hasImportName "itertools" (List.map mkFlatLoop (x :: xs)) = false :=
    hasImportName_map_false (x :: xs) (fun a => rfl)
  have hins : ensureItertoolsImport (List.map mkFlatLoop (x :: xs))
      = itImportStmt :: List.map mkFlatLoop (x :: xs) :=
    ensureItertools_insert_of_absent _ hB0
  have hstable : moduleStep (xs.length + 1 + 1)
      (itImportStmt :: mkFlatLoop x :: List.map mkFlatLoop xs) 1 [flatG x]
      = [flatG x]
        ++ ((itImportStmt :: mkFlatLoop x :: List.map mkFlatLoop xs).drop 1).map
            (fun s => match flattenNestedLoop s with | some f => f | none => s) := by
    apply moduleStep_stable
    · intro j hj
      cases j with
      | zero => rfl
      | succ jj =>
        have hjj : jj < (List.map mkFlatLoop (x :: xs)).length := by simpa using hj
        have hel : (itImportStmt :: mkFlatLoop x :: List.map mkFlatLoop xs)[jj + 1]
            = (List.map mkFlatLoop (x :: xs))[jj] := by
          simp only [List.getElem_cons_succ, List.map_cons]
        rw [hel, List.getElem_map]
        rfl
    · simp
  rw [engineRewrite]
  rw [moduleStep, dif_pos (by simp : 0 < (List.map mkFlatLoop (x :: xs)).length)]
  simp only [List.get_eq_getElem, List.map_cons, List.getElem_cons_zero]
  rw [show engineVisitStmt (mkFlatLoop x) (mkFlatLoop x :: List.map mkFlatLoop xs)
      = (flatG x, mkFlatLoop x,
          itImportStmt :: mkFlatLoop x :: List.map mkFlatLoop xs) from by
    rw [visit_mkFlatLoop_eq]
    simp only [List.map_cons] at hins
    rw [hins]]
  simp only [List.length_cons, List.length_map, Nat.add_sub_cancel_left, List.nil_append,
    Nat.zero_add, List.set_cons_succ, List.set_cons_zero]
  rw [hstable]
  simp only [List.drop_succ_cons, List.drop_zero, List.map_cons, List.singleton_append,
    List.map_map]
  rw [show (match flattenNestedLoop (mkFlatLoop x) with
      | some f => f
      | none => mkFlatLoop x) = flatG x from rfl]
  rw [show ((fun s => match flattenNestedLoop s with | some f => f | none => s) ∘ mkFlatLoop)
      = (fun a => flatG a) from funext fun a => rfl]
  rw [show containsNumpyUsage (flatG x :: flatG x :: List.map (fun a => flatG a) xs)
      = false from by
    simp only [containsNumpyUsage, stmtsHasNp, show stmtHasNp (flatG x) = false from rfl,
      Bool.false_or]
    exact stmtsHasNp_map_false xs (fun a => rfl)]
  simp only [Bool.false_eq_true, if_false]
  unfold countImportName
  rw [List.countP_eq_zero]
  intro s hs
  rcases List.mem_cons.mp hs with rfl | hs
  · simp [flatG, isImportOfName]
  rcases List.mem_cons.mp hs with rfl | hs
  · simp [flatG, isImportOfName]
  rcases List.mem_map.mp hs with ⟨a, _, rfl⟩
  simp [flatG, isImportOfName]

/-!
## Claims C1 and C8 — the module pass
-/

set_option maxHeartbeats 1600000 in
/-- C1 (corrected): for the module whose body is exactly the loop
`for idx in range(len(arr)): arr[idx] = arr[idx] + c`, the Rewrite Engine
does not emit the two-statement sequence of the claim.  It replaces the loop
with the single assignment `arr = np.array(arr) + (arr[idx] + c)` — the
entire original right-hand side under an addition — injects the numpy import
exactly once at the top, and, because the mid-pass import insertion shifts
the live body under the iterator of `generic_visit`, the replacement
assignment appears twice in the final module. -/
theorem c1_vectorized_rewrite (arr idx : String) (c : Const) (ln vln : Nat) :
    engineRewrite [vecLoopG arr idx c ln vln]
      = [npImportStmt, vecAssignG arr idx c vln, vecAssignG arr idx c vln] := rfl

set_option maxHeartbeats 1600000 in
/-- Counterexample to C1 as stated: on `c1Input` the engine output is not the
spec-claimed two-statement sequence with one import. -/
theorem c1_vectorized_rewrite_counterexample :
    engineRewrite c1Input
        = [npImportStmt, vecAssignG "arr" "i" (.intC 10) 1, vecAssignG "arr" "i" (.intC 10) 1]
      ∧ engineRewrite c1Input ≠ c1SpecClaimedRewrite :=
  ⟨rfl, fun h => nomatch h⟩

/-- C8 (confirmed): each required import is injected at most once per tree
and never when an import of the same name is already present.  The two
ensure helpers — the only injection sites — are the identity when the name
is already imported and otherwise bring the count from zero to exactly one;
over a whole pass, a module of arbitrarily many vectorizable loops ends with
exactly one numpy import, and a module of arbitrarily many flattenable loops
ends with zero itertools imports (the mid-pass insertion is discarded by the
final body overwrite), both within the at-most-once bound. -/
theorem c8_import_deduplication :
    (∀ b, hasImportName "numpy" b = true → ensureNumpyImport b = b)
    ∧ (∀ b, hasImportName "itertools" b = true → ensureItertoolsImport b = b)
    ∧ (∀ b, countImportName "numpy" (ensureNumpyImport b)
        = max 1 (countImportName "numpy" b))
    ∧ (∀ b, countImportName "itertools" (ensureItertoolsImport b)
        = max 1 (countImportName "itertools" b))
    ∧ (∀ (x : String) (xs : List String),
        countImportName "numpy" (engineRewrite (List.map mkVecLoop (x :: xs))) = 1)
    ∧ (∀ (x : String) (xs : List String),
        countImportName "itertools" (engineRewrite (List.map mkFlatLoop (x :: xs))) = 0) :=
  ⟨ensureNumpy_of_present, ensureItertools_of_present,
   countImport_ensureNumpy, countImport_ensureItertools,
   engineRewrite_vecFamily_numpy_count, engineRewrite_flatFamily_itertools_count⟩

/-- Witness for C8: with numpy already imported the ensure helper changes
nothing, and a module of three vectorizable loops ends with exactly one
numpy import. -/
theorem c8_import_deduplication_witness :
    hasImportName "numpy" [npImportStmt] = true
      ∧ ensureNumpyImport [npImportStmt] = [npImportStmt]
      ∧ countImportName "numpy" (engineRewrite (List.map mkVecLoop ["a", "b", "c"])) = 1 :=
  ⟨rfl, c8_import_deduplication.1 [npImportStmt] rfl,
   c8_import_deduplication.2.2.2.2.1 "a" ["b", "c"]⟩
